import Mathlib

/-!
Shallow embedding of the kernel-object signal/wait subsystem of
`zcore-zircon-object` (`src/object/mod.rs`).

Modelling decisions:

* `Signal` is a bitset of state flags (`bitflags`).  Its module is not part
  of the shown source, so it is modelled from the spec as a `Nat` used as a
  bitset: union is `|||`, bit removal (`s & !clear`) is `s - (s &&& clear)`
  (the common bits are a sub-bitset of `s`, so subtraction clears exactly
  them), the "has any bit in common" test is `(a &&& b) ≠ 0`.
* A `SignalHandler` in the source is a boxed closure
  `Box<dyn Fn(Signal) -> bool + Send>`.  Each box is a distinct heap object;
  we identify it by a `Nat` id (its address) and supply the closure bodies
  through an environment `env : Nat → Signal → Bool`.
* The mutable part of the object (`KObjectBaseInner`) is threaded
  explicitly; the `Mutex` serialises all accesses, so one call corresponds
  to one function application on the state.
* Calling a callback is an observable event; `signal_change` returns, next
  to the updated state, the list of `Invocation`s it performed, in order.
* Side effects inside the callbacks registered by `wait_signal` and
  `SignalFuture::poll` (waking the captured waker) happen exactly when the
  callback returns `true`; the returned `Bool` therefore records the wake.
-/

/-- `Signal`: bitset of state flags belonging to a kernel object.
Modelled from the spec: the `signal` module is not under `src/`; the spec
describes `Signal` as "an opaque bitset of state flags with
union/difference/intersection-emptiness/equality operations". -/
abbrev Signal := Nat

/-- `Signal::empty()`. -/
def Signal.emptySig : Signal := 0

/-- `bitflags` `remove`: clear in `s` every bit of `clear`, i.e.
`s & !clear`.  `s &&& clear` has only bits that are set in `s`, so the
subtraction clears exactly the common bits. -/
def Signal.removeBits (s clear : Signal) : Signal := s - (s &&& clear)

/-- `bitflags` `insert`: set in `s` every bit of `more`. -/
def Signal.insertBits (s more : Signal) : Signal := s ||| more

/-- The mutable part of `KObjectBase` (struct `KObjectBaseInner`):
the current signal and the ordered list of registered callbacks
(identified by their heap ids). -/
structure KObjectBaseInner where
  signal : Signal
  signal_callbacks : List Nat
deriving Repr, DecidableEq

/-- One observable callback call: which handler ran, with which argument,
and what it returned. -/
structure Invocation where
  handler : Nat
  arg : Signal
  result : Bool
deriving Repr, DecidableEq

/-- `KObjectBase::signal_change(clear, set)`: under the lock, remove `clear`
bits then insert `set` bits; if the result equals the prior value return with
no callback evaluation, otherwise `retain` only the callbacks returning
`false` on the new value.  Also returns the list of callback invocations
performed (one per registered callback when a transition is observed). -/
def signal_change (env : Nat → Signal → Bool) (inner : KObjectBaseInner)
    (clear setBits : Signal) : KObjectBaseInner × List Invocation :=
  let old_signal := inner.signal
  let new_signal := Signal.insertBits (Signal.removeBits old_signal clear) setBits
  if new_signal = old_signal then
    ({ inner with signal := new_signal }, [])
  else
    ({ signal := new_signal,
       signal_callbacks := inner.signal_callbacks.filter fun f => !(env f new_signal) },
     inner.signal_callbacks.map fun f => ⟨f, new_signal, env f new_signal⟩)

/-- `KObjectBase::signal_set(signal)`. -/
def signal_set (env : Nat → Signal → Bool) (inner : KObjectBaseInner)
    (signal : Signal) : KObjectBaseInner × List Invocation :=
  signal_change env inner Signal.emptySig signal

/-- `KObjectBase::signal_clear(signal)`. -/
def signal_clear (env : Nat → Signal → Bool) (inner : KObjectBaseInner)
    (signal : Signal) : KObjectBaseInner × List Invocation :=
  signal_change env inner signal Signal.emptySig

/-- `KObjectBase::add_signal_callback(callback)`: push the callback at the
end of the list, under the lock. -/
def add_signal_callback (inner : KObjectBaseInner) (callback : Nat) :
    KObjectBaseInner :=
  { inner with signal_callbacks := inner.signal_callbacks ++ [callback] }

/-- One call on the object's mutating interface. -/
inductive Op where
  | set (signal : Signal)
  | clear (signal : Signal)
  | change (clear setBits : Signal)
  | add (callback : Nat)
deriving Repr, DecidableEq

/-- Whether the call is one of the three signal mutators
(`signal_set` / `signal_clear` / `signal_change`). -/
def Op.isMutator : Op → Bool
  | .add _ => false
  | _ => true

/-- The `(clear, set)` pair a mutating call hands to `signal_change`. -/
def Op.clearSet : Op → Signal × Signal
  | .set s => (Signal.emptySig, s)
  | .clear s => (s, Signal.emptySig)
  | .change c s => (c, s)
  | .add _ => (Signal.emptySig, Signal.emptySig)

/-- Execute one call on the state. -/
def step (env : Nat → Signal → Bool) (inner : KObjectBaseInner) :
    Op → KObjectBaseInner × List Invocation
  | .set s => signal_set env inner s
  | .clear s => signal_clear env inner s
  | .change c s => signal_change env inner c s
  | .add h => (add_signal_callback inner h, [])

/-- Execute a sequence of calls, collecting all callback invocations in
order. -/
def run (env : Nat → Signal → Bool) (inner : KObjectBaseInner) :
    List Op → KObjectBaseInner × List Invocation
  | [] => (inner, [])
  | op :: ops =>
    let r := step env inner op
    let r2 := run env r.1 ops
    (r2.1, r.2 ++ r2.2)

/-- The pure clear-then-set step on a bare signal value (the spec's
"remove the clear bits from the current value, then insert the set bits"). -/
def applyStep (v : Signal) (cs : Signal × Signal) : Signal :=
  Signal.insertBits (Signal.removeBits v cs.1) cs.2

/-- The new signal value `signal_change env inner c s` installs. -/
def newSignal (inner : KObjectBaseInner) (c s : Signal) : Signal :=
  Signal.insertBits (Signal.removeBits inner.signal c) s

-- Basic unfolding lemmas ----------------------------------------------------

theorem signal_change_fst_signal (env : Nat → Signal → Bool)
    (inner : KObjectBaseInner) (c s : Signal) :
    (signal_change env inner c s).1.signal = newSignal inner c s := by
  simp only [signal_change, newSignal]
  split <;> rfl

theorem signal_change_eq_of_ne (env : Nat → Signal → Bool)
    (inner : KObjectBaseInner) (c s : Signal)
    (h : newSignal inner c s ≠ inner.signal) :
    signal_change env inner c s =
      ({ signal := newSignal inner c s,
         signal_callbacks :=
           inner.signal_callbacks.filter fun f => !(env f (newSignal inner c s)) },
       inner.signal_callbacks.map fun f =>
         ⟨f, newSignal inner c s, env f (newSignal inner c s)⟩) := by
  unfold newSignal at h
  simp only [signal_change]
  rw [if_neg h]
  rfl

theorem signal_change_eq_of_eq (env : Nat → Signal → Bool)
    (inner : KObjectBaseInner) (c s : Signal)
    (h : newSignal inner c s = inner.signal) :
    signal_change env inner c s = (inner, []) := by
  unfold newSignal at h
  simp only [signal_change]
  rw [if_pos h, h]

-- Blocking wait, async wait, KoID allocation --------------------------------

/-- The body of the closure registered by `wait_signal` and by
`SignalFuture::poll`: on a new signal `s`, if `s` has a bit in common with
the captured `mask` it wakes the captured waker and returns `true`
(one-shot), else returns `false`.  The returned `Bool` records the wake. -/
def signalCallback (mask s : Signal) : Bool := decide ((s &&& mask) ≠ 0)

/-- The `while` loop at the end of `KObjectBase::wait_signal`: while the
last-read signal has no bit in common with `mask`, park and re-read.
`reads` is the sequence of values `self.signal()` yields after each park;
`none` means the oracle is exhausted while still blocked. -/
def waitLoop (mask current : Signal) : List Signal → Option Signal
  | [] => if (current &&& mask) = 0 then none else some current
  | r :: rest =>
    if (current &&& mask) = 0 then waitLoop mask r rest else some current

/-- `KObjectBase::wait_signal(signal)`: snapshot the current signal; if it
intersects the mask return it at once; otherwise register a one-shot
callback (fresh heap id `callback`, body `signalCallback mask`) and loop
parking/re-reading.  `reads` is the environment's sequence of re-read
values. -/
def wait_signal (inner : KObjectBaseInner) (mask : Signal) (callback : Nat)
    (reads : List Signal) : Option Signal × KObjectBaseInner :=
  let current_signal := inner.signal
  if (current_signal &&& mask) ≠ 0 then (some current_signal, inner)
  else (waitLoop mask current_signal reads, add_signal_callback inner callback)

/-- The state of the future returned by `wait_signal_async`: the waited-for
mask and the not-yet-registered flag.  (The `object` field is the shared
state, threaded explicitly through `poll`.) -/
structure SignalFuture where
  signal : Signal
  first : Bool
deriving Repr, DecidableEq

/-- `Poll<Signal>`. -/
inductive PollResult where
  | ready (s : Signal)
  | pending
deriving Repr, DecidableEq

/-- `SignalFuture::poll`: read the current signal; if it intersects the mask
complete with it; otherwise, on the first poll only, register a one-shot
callback (fresh heap id `callback`, body `signalCallback self.signal`) and
clear `first`; return pending. -/
def SignalFuture.poll (self : SignalFuture) (inner : KObjectBaseInner)
    (callback : Nat) : PollResult × SignalFuture × KObjectBaseInner :=
  let current_signal := inner.signal
  if (current_signal &&& self.signal) ≠ 0 then
    (.ready current_signal, self, inner)
  else if self.first then
    (.pending, { self with first := false }, add_signal_callback inner callback)
  else
    (.pending, self, inner)

/-- `KObjectBase::new_koid`: `KOID.fetch_add(1, SeqCst)` on a static
`AtomicU64` initialised to 1024 — returns the old counter value and stores
the incremented one, with `u64` wraparound. -/
def new_koid (koid : Nat) : Nat × Nat := (koid, (koid + 1) % 2 ^ 64)

/-- The initial value of the static `KOID` counter. -/
def koidInit : Nat := 1024

/-- The ids handed out by `n` successive `new_koid` calls starting from
counter value `c`. -/
def koids : Nat → Nat → List Nat
  | 0, _ => []
  | n + 1, c => (new_koid c).1 :: koids n (new_koid c).2

-- Helper lemmas -------------------------------------------------------------

theorem step_fst_signal (env : Nat → Signal → Bool) (inner : KObjectBaseInner)
    (op : Op) (h : op.isMutator = true) :
    (step env inner op).1.signal = applyStep inner.signal op.clearSet := by
  cases op with
  | set s =>
    simp only [step, signal_set, Op.clearSet]
    exact signal_change_fst_signal env inner Signal.emptySig s
  | clear s =>
    simp only [step, signal_clear, Op.clearSet]
    exact signal_change_fst_signal env inner s Signal.emptySig
  | change c s =>
    simp only [step, Op.clearSet]
    exact signal_change_fst_signal env inner c s
  | add cb => simp [Op.isMutator] at h

theorem run_fst_signal (env : Nat → Signal → Bool) :
    ∀ (ops : List Op) (inner : KObjectBaseInner),
    (∀ op ∈ ops, op.isMutator = true) →
    (run env inner ops).1.signal =
      ops.foldl (fun v op => applyStep v op.clearSet) inner.signal
  | [], _, _ => rfl
  | op :: ops, inner, h => by
    have h1 : op.isMutator = true := h op (List.mem_cons_self op ops)
    have h2 : ∀ o ∈ ops, o.isMutator = true :=
      fun o ho => h o (List.mem_cons_of_mem _ ho)
    simp only [run, List.foldl_cons]
    rw [run_fst_signal env ops (step env inner op).1 h2,
      step_fst_signal env inner op h1]

-- Claim theorems ------------------------------------------------------------

/-- **C1.** For every starting signal value and every sequence of
`signal_set`/`signal_clear`/`signal_change` calls, the final signal equals
the bitwise fold of applying, in call order, each step as: remove the clear
bits, then insert the set bits.  A single `signal_change(clear, set)` leaves
the signal equal to `(old minus clear) union set`. -/
theorem c1_signal_fold (env : Nat → Signal → Bool) (inner : KObjectBaseInner)
    (ops : List Op) (hm : ∀ op ∈ ops, op.isMutator = true) :
    (run env inner ops).1.signal =
      ops.foldl (fun v op => applyStep v op.clearSet) inner.signal ∧
    ∀ c s, (signal_change env inner c s).1.signal =
      Signal.insertBits (Signal.removeBits inner.signal c) s :=
  ⟨run_fst_signal env ops inner hm,
   fun c s => signal_change_fst_signal env inner c s⟩

/-- Witness for C1 at a concrete run. -/
theorem c1_signal_fold_witness :
    (run (fun _ _ => false) ⟨0, []⟩
        [Op.set 1, Op.change 1 2, Op.clear 2]).1.signal =
      [Op.set 1, Op.change 1 2, Op.clear 2].foldl
        (fun v op => applyStep v op.clearSet) 0 :=
  (c1_signal_fold (fun _ _ => false) ⟨0, []⟩
    [Op.set 1, Op.change 1 2, Op.clear 2] (by decide)).1

/-- **C2.** A `signal_change` whose resulting value equals the prior value
invokes no callback and leaves the state (callback list included)
unchanged; any callback invocation implies the new signal differs from the
old one. -/
theorem c2_no_transition_no_callbacks (env : Nat → Signal → Bool)
    (inner : KObjectBaseInner) (c s : Signal) :
    (newSignal inner c s = inner.signal →
      signal_change env inner c s = (inner, [])) ∧
    ((signal_change env inner c s).2 ≠ [] →
      newSignal inner c s ≠ inner.signal) := by
  refine ⟨signal_change_eq_of_eq env inner c s, fun hne he => hne ?_⟩
  rw [signal_change_eq_of_eq env inner c s he]

/-- Witness for C2: setting an already-set bit nets no difference and fires
no callback. -/
theorem c2_no_transition_no_callbacks_witness :
    signal_change (fun _ _ => true) ⟨1, [0, 1]⟩ 0 1 = (⟨1, [0, 1]⟩, []) :=
  (c2_no_transition_no_callbacks (fun _ _ => true) ⟨1, [0, 1]⟩ 0 1).1
    (by decide)

theorem signal_change_not_involving (env : Nat → Signal → Bool)
    (inner : KObjectBaseInner) (c s : Signal) (h : Nat)
    (hnotin : h ∉ inner.signal_callbacks) :
    (∀ inv ∈ (signal_change env inner c s).2, inv.handler ≠ h) ∧
    h ∉ (signal_change env inner c s).1.signal_callbacks := by
  by_cases he : newSignal inner c s = inner.signal
  · rw [signal_change_eq_of_eq env inner c s he]
    exact ⟨by simp, hnotin⟩
  · rw [signal_change_eq_of_ne env inner c s he]
    constructor
    · intro inv hinv
      obtain ⟨f, hf, rfl⟩ := List.mem_map.mp hinv
      exact fun hh => hnotin (hh ▸ hf)
    · intro hmem
      exact hnotin (List.mem_of_mem_filter hmem)

theorem step_not_involving (env : Nat → Signal → Bool)
    (inner : KObjectBaseInner) (op : Op) (h : Nat)
    (hnotin : h ∉ inner.signal_callbacks) (hop : op ≠ Op.add h) :
    (∀ inv ∈ (step env inner op).2, inv.handler ≠ h) ∧
    h ∉ (step env inner op).1.signal_callbacks := by
  cases op with
  | set s => exact signal_change_not_involving env inner Signal.emptySig s h hnotin
  | clear s => exact signal_change_not_involving env inner s Signal.emptySig h hnotin
  | change c s => exact signal_change_not_involving env inner c s h hnotin
  | add cb =>
    refine ⟨by simp [step], fun hmem => ?_⟩
    rcases List.mem_append.mp hmem with hmem | hmem
    · exact hnotin hmem
    · exact hop (by simpa using congrArg Op.add (List.mem_singleton.mp hmem).symm)

theorem run_not_involving (env : Nat → Signal → Bool) (h : Nat) :
    ∀ (ops : List Op) (inner : KObjectBaseInner),
    h ∉ inner.signal_callbacks → (∀ op ∈ ops, op ≠ Op.add h) →
    (∀ inv ∈ (run env inner ops).2, inv.handler ≠ h) ∧
    h ∉ (run env inner ops).1.signal_callbacks
  | [], inner, hnotin, _ => ⟨by simp [run], hnotin⟩
  | op :: ops, inner, hnotin, hops => by
    have h1 := step_not_involving env inner op h hnotin
      (hops op (List.mem_cons_self op ops))
    have h2 := run_not_involving env h ops (step env inner op).1 h1.2
      (fun o ho => hops o (List.mem_cons_of_mem _ ho))
    simp only [run]
    refine ⟨fun inv hinv => ?_, h2.2⟩
    rcases List.mem_append.mp hinv with hinv | hinv
    · exact h1.1 inv hinv
    · exact h2.1 inv hinv

/-- **C3.** A registered callback is invoked at most once per distinct
transition (the callback list holds each boxed closure once); an invocation
that returns `true` removes the callback from the list at that point; a
callback absent from the list and never re-added is never invoked by any
later call and stays absent. -/
theorem c3_one_shot_removal (env : Nat → Signal → Bool)
    (inner : KObjectBaseInner) (c s : Signal) (h : Nat) (ops : List Op) :
    (inner.signal_callbacks.Nodup →
      ((signal_change env inner c s).2.countP fun inv => inv.handler == h) ≤ 1) ∧
    (∀ s0, (⟨h, s0, true⟩ : Invocation) ∈ (signal_change env inner c s).2 →
      h ∉ (signal_change env inner c s).1.signal_callbacks) ∧
    (h ∉ inner.signal_callbacks → (∀ op ∈ ops, op ≠ Op.add h) →
      (∀ inv ∈ (run env inner ops).2, inv.handler ≠ h) ∧
      h ∉ (run env inner ops).1.signal_callbacks) := by
  refine ⟨?_, ?_, run_not_involving env h ops inner⟩
  · intro hnd
    by_cases he : newSignal inner c s = inner.signal
    · rw [signal_change_eq_of_eq env inner c s he]
      simp
    · rw [signal_change_eq_of_ne env inner c s he]
      have : ((inner.signal_callbacks.map fun f =>
          (⟨f, newSignal inner c s, env f (newSignal inner c s)⟩ : Invocation)).countP
            fun inv => inv.handler == h) = inner.signal_callbacks.count h := by
        rw [List.countP_map]
        rfl
      rw [this]
      exact List.nodup_iff_count_le_one.mp hnd h
  · intro s0 hmem
    by_cases he : newSignal inner c s = inner.signal
    · rw [signal_change_eq_of_eq env inner c s he] at hmem
      simp at hmem
    · rw [signal_change_eq_of_ne env inner c s he] at hmem ⊢
      obtain ⟨f, hf, hfe⟩ := List.mem_map.mp hmem
      obtain ⟨rfl, -, htrue⟩ := Invocation.mk.injEq .. ▸ hfe
      intro hmemf
      have := (List.mem_filter.mp hmemf).2
      rw [htrue] at this
      simp at this

/-- Witness for C3: handler 9 is never involved in a run that never adds
it. -/
theorem c3_one_shot_removal_witness :
    9 ∉ (run (fun _ _ => true) (⟨0, []⟩ : KObjectBaseInner)
        [Op.add 5, Op.set 1]).1.signal_callbacks :=
  ((c3_one_shot_removal (fun _ _ => true) ⟨0, []⟩ 0 0 9 [Op.add 5, Op.set 1]).2.2
    (by decide) (by decide)).2

/-- **C4.** On a transition (new value differs from the old one), the
callbacks are invoked in insertion order, each exactly once, each with the
single combined new signal value — the trace is exactly the callback list
mapped to invocations at the new value, and no invocation carries any other
(e.g. intermediate post-clear pre-set) value. -/
theorem c4_transition_trace (env : Nat → Signal → Bool)
    (inner : KObjectBaseInner) (c s : Signal)
    (h : newSignal inner c s ≠ inner.signal) :
    (signal_change env inner c s).2 =
      inner.signal_callbacks.map
        (fun f => ⟨f, newSignal inner c s, env f (newSignal inner c s)⟩) ∧
    ∀ inv ∈ (signal_change env inner c s).2, inv.arg = newSignal inner c s := by
  rw [signal_change_eq_of_ne env inner c s h]
  refine ⟨rfl, fun inv hinv => ?_⟩
  obtain ⟨f, -, rfl⟩ := List.mem_map.mp hinv
  rfl

/-- Witness for C4 at a concrete transition. -/
theorem c4_transition_trace_witness :
    (signal_change (fun _ _ => false) ⟨0, [7]⟩ 0 1).2 =
      [⟨7, 1, false⟩] :=
  (c4_transition_trace (fun _ _ => false) ⟨0, [7]⟩ 0 1 (by decide)).1

/-- **C7.** `add_signal_callback` appends the callback at the end of the
list, performs no invocation, and leaves the signal value and the
previously registered callbacks unchanged. -/
theorem c7_add_signal_callback_frame (env : Nat → Signal → Bool)
    (inner : KObjectBaseInner) (cb : Nat) :
    (add_signal_callback inner cb).signal = inner.signal ∧
    (add_signal_callback inner cb).signal_callbacks =
      inner.signal_callbacks ++ [cb] ∧
    step env inner (Op.add cb) = (add_signal_callback inner cb, []) :=
  ⟨rfl, rfl, rfl⟩

/-- **C9.** `signal_set(s)` is exactly `signal_change(empty, s)` and
`signal_clear(s)` is exactly `signal_change(s, empty)`: identical resulting
state (signal value and callback list) and identical callback invocation
trace. -/
theorem c9_set_clear_are_change (env : Nat → Signal → Bool)
    (inner : KObjectBaseInner) (s : Signal) :
    signal_set env inner s = signal_change env inner Signal.emptySig s ∧
    signal_clear env inner s = signal_change env inner s Signal.emptySig :=
  ⟨rfl, rfl⟩

/-- **C10.** After every `signal_change` the surviving callbacks form a
sublist of the original list (relative insertion order is preserved), and
on a transition they are exactly the callbacks that returned `false`, in
their original order. -/
theorem c10_retain_order_stable (env : Nat → Signal → Bool)
    (inner : KObjectBaseInner) (c s : Signal) :
    List.Sublist (signal_change env inner c s).1.signal_callbacks
      inner.signal_callbacks ∧
    (newSignal inner c s ≠ inner.signal →
      (signal_change env inner c s).1.signal_callbacks =
        inner.signal_callbacks.filter fun f => !(env f (newSignal inner c s))) := by
  by_cases h : newSignal inner c s = inner.signal
  · rw [signal_change_eq_of_eq env inner c s h]
    exact ⟨List.Sublist.refl _, fun hne => absurd h hne⟩
  · rw [signal_change_eq_of_ne env inner c s h]
    exact ⟨List.filter_sublist _, fun _ => rfl⟩

/-- Witness for C10: with every callback returning `true`, a transition
empties the list. -/
theorem c10_retain_order_stable_witness :
    (signal_change (fun _ _ => true) ⟨0, [3, 4]⟩ 0 1).1.signal_callbacks = [] :=
  (c10_retain_order_stable (fun _ _ => true) ⟨0, [3, 4]⟩ 0 1).2 (by decide)

theorem waitLoop_eq_some (mask : Signal) :
    ∀ (reads : List Signal) (current v : Signal),
    waitLoop mask current reads = some v →
    (v &&& mask) ≠ 0 ∧ (v = current ∨ v ∈ reads)
  | [], current, v => by
    simp only [waitLoop]
    by_cases hc : (current &&& mask) = 0
    · rw [if_pos hc]
      intro h
      cases h
    · rw [if_neg hc]
      intro h
      cases h
      exact ⟨hc, Or.inl rfl⟩
  | r :: rest, current, v => by
    simp only [waitLoop]
    by_cases hc : (current &&& mask) = 0
    · rw [if_pos hc]
      intro h
      obtain ⟨h1, h2⟩ := waitLoop_eq_some mask rest r v h
      refine ⟨h1, Or.inr ?_⟩
      rcases h2 with rfl | h2
      · exact List.mem_cons_self v rest
      · exact List.mem_cons_of_mem r h2
    · rw [if_neg hc]
      intro h
      cases h
      exact ⟨hc, Or.inl rfl⟩

/-- **C5.** If the current signal already intersects the mask,
`wait_signal` returns the full current signal at once and leaves the state
(signal and callback list) untouched, registering nothing; and whenever
`wait_signal` returns a value, that value intersects the mask and is one of
the signal values actually observed (the initial snapshot or a re-read). -/
theorem c5_wait_signal (inner : KObjectBaseInner) (mask : Signal)
    (callback : Nat) (reads : List Signal) :
    ((inner.signal &&& mask) ≠ 0 →
      wait_signal inner mask callback reads = (some inner.signal, inner)) ∧
    (∀ v, (wait_signal inner mask callback reads).1 = some v →
      (v &&& mask) ≠ 0 ∧ (v = inner.signal ∨ v ∈ reads)) := by
  constructor
  · intro h
    simp only [wait_signal]
    rw [if_pos h]
  · intro v hv
    by_cases h : (inner.signal &&& mask) ≠ 0
    · simp only [wait_signal] at hv
      rw [if_pos h] at hv
      cases hv
      exact ⟨h, Or.inl rfl⟩
    · simp only [wait_signal] at hv
      rw [if_neg h] at hv
      exact waitLoop_eq_some mask reads inner.signal v hv

/-- Witness for C5: signal 3 already intersects mask 1, immediate return. -/
theorem c5_wait_signal_witness :
    wait_signal ⟨3, []⟩ 1 0 [] = (some 3, ⟨3, []⟩) :=
  (c5_wait_signal ⟨3, []⟩ 1 0 []).1 (by decide)

/-- **C6.** A poll of the future from `wait_signal_async(mask)` completes
immediately with the full current signal whenever the current signal
intersects the mask (whether or not a callback was registered); otherwise
it returns pending, registering the one-shot callback on the first poll
only and leaving the state untouched on later polls.  The registered
callback body returns `true` (waking the captured waker) exactly on a
signal intersecting the mask. -/
theorem c6_poll (env : Nat → Signal → Bool) (fut : SignalFuture)
    (inner : KObjectBaseInner) (callback : Nat)
    (henv : env callback = signalCallback fut.signal) :
    ((inner.signal &&& fut.signal) ≠ 0 →
      fut.poll inner callback = (.ready inner.signal, fut, inner)) ∧
    ((inner.signal &&& fut.signal) = 0 →
      (fut.poll inner callback).1 = .pending ∧
      (fut.first = true →
        fut.poll inner callback =
          (.pending, ⟨fut.signal, false⟩, add_signal_callback inner callback)) ∧
      (fut.first = false → fut.poll inner callback = (.pending, fut, inner))) ∧
    (∀ s, env callback s = true ↔ (s &&& fut.signal) ≠ 0) := by
  refine ⟨?_, ?_, ?_⟩
  · intro h
    simp only [SignalFuture.poll]
    rw [if_pos h]
  · intro h
    have hni : ¬(inner.signal &&& fut.signal) ≠ 0 := not_not_intro h
    simp only [SignalFuture.poll]
    rw [if_neg hni]
    refine ⟨?_, ?_, ?_⟩
    · by_cases hf : fut.first <;> simp [hf]
    · intro hf
      rw [if_pos hf]
    · intro hf
      rw [if_neg (by simp [hf])]
  · intro s
    rw [henv]
    simp [signalCallback]

/-- Witness for C6: first poll with a non-intersecting signal registers the
callback and goes pending. -/
theorem c6_poll_witness :
    SignalFuture.poll ⟨1, true⟩ ⟨0, []⟩ 0 =
      (.pending, ⟨1, false⟩, add_signal_callback ⟨0, []⟩ 0) :=
  ((c6_poll (fun _ => signalCallback 1) ⟨1, true⟩ ⟨0, []⟩ 0 rfl).2.1
    (by decide)).2.1 rfl

theorem koids_eq_range' : ∀ (n c : Nat), c + n ≤ 2 ^ 64 →
    koids n c = List.range' c n
  | 0, _, _ => rfl
  | 1, _, _ => rfl
  | n + 2, c, h => by
    have hlt : c + 1 < 2 ^ 64 := by omega
    show c :: koids (n + 1) ((c + 1) % 2 ^ 64) = List.range' c (n + 2)
    rw [Nat.mod_eq_of_lt hlt, koids_eq_range' (n + 1) (c + 1) (by omega)]
    exact (List.range'_succ c (n + 1) 1).symm

/-- **C8.** KoIDs are drawn from one counter seeded at 1024: as long as the
`u64` id space is not exhausted (the spec assumes it inexhaustible for the
process lifetime), any sequence of allocations yields strictly increasing,
pairwise distinct ids, the first of which is 1024. -/
theorem c8_koid_allocation (n : Nat) (h : 1024 + n ≤ 2 ^ 64) :
    List.Pairwise (· < ·) (koids n koidInit) ∧
    (koids n koidInit).Nodup ∧
    (0 < n → (koids n koidInit).head? = some 1024) := by
  have he : koids n koidInit = List.range' 1024 n :=
    koids_eq_range' n 1024 h
  refine ⟨?_, ?_, ?_⟩
  · rw [he]
    exact List.pairwise_lt_range' 1024 n
  · rw [he]
    exact List.nodup_range' 1024 n
  · intro hn
    rw [he]
    cases n with
    | zero => omega
    | succ m =>
      rw [List.range'_succ]
      rfl

/-- Witness for C8 at three allocations. -/
theorem c8_koid_allocation_witness :
    List.Pairwise (· < ·) (koids 3 koidInit) ∧
    (koids 3 koidInit).Nodup ∧
    (0 < 3 → (koids 3 koidInit).head? = some 1024) :=
  c8_koid_allocation 3 (by norm_num)
